import Mathlib

/-!
# Basler pylon camera adapter: enumeration parameters as host properties

A shallow embedding of the two template members of `BaslerCamera` that are
defined in `DeviceAdapters/Basler/BaslerPylonCamera.h`:

* `CreatePropertyFromEnum` (lines 273-314) and
* `OnEnumPropertyChanged` (lines 315-366),

together with `EAccessName` (lines 221-236).

The vendor SDK is closed source, so a camera enum parameter is an abstract
state `σ` with the four SDK calls the header makes on it, given as a record
of functions (`IEnumParameterT`).  A call that throws a `GenericException`
returns `Except.error`.  The host side (`MM::PropertyBase`, `MM::Property`,
the device's property collection) is modelled by small records.
-/

namespace BaslerPylonCamera

/-! ## Vocabulary of the two foreign interfaces -/

/-- Modelled from the spec: the SDK's enumeration `GenApi::EAccessMode`, which
the header uses and does not declare. The header names `NA`, `NI`, `RO`, `RW`
and `WO`; the two remaining constructors stand for the values that reach the
`default` branch of `EAccessName`. -/
inductive EAccessMode
  | NI
  | NA
  | WO
  | RO
  | RW
  | UndefinedAccesMode
  | CycleDetectAccesMode
  deriving DecidableEq, Repr

/-- Modelled from the spec: the host's enumeration `MM::ActionType`, which
the header uses and does not declare. The header names `BeforeGet` and
`AfterSet`; the other constructors stand for the values that reach neither
branch of the handler. -/
inductive ActionType
  | NoAction
  | BeforeGet
  | AfterSet
  | IsSequenceable
  | AfterLoadSequence
  | StartSequence
  | StopSequence
  deriving DecidableEq, Repr

/-- Modelled from the spec: the host's return code `DEVICE_OK`, a constant of
the host's device framework that the header uses and does not define. -/
def DEVICE_OK : Int := 0

/-- Modelled from the spec: the host's return code `DEVICE_ERR`, a constant of
the host's device framework that the header uses and does not define. -/
def DEVICE_ERR : Int := 1

/-- Modelled from the spec: the SDK's `GenericException`, reduced to what the
header reads from it, `GetDescription()`. -/
structure GenericException where
  description : String
  deriving DecidableEq, Repr

/-- The SDK calls that the header makes on a `Pylon::IEnumParameterT<enumType>`
whose state is a value of `σ`.

* `GetAccessMode` is called outside every `try` block (lines 277 and 318), so
  it is a plain read.
* `GetSymbolics` fills a `StringList_t` or throws.
* `GetCurrentEntrySymbolic` is `GetCurrentEntry()->GetSymbolic()`.
* `FromString` writes the parameter (giving its next state) or throws. -/
structure IEnumParameterT (σ : Type) where
  GetAccessMode : σ → EAccessMode
  GetSymbolics : σ → Except GenericException (List String)
  GetCurrentEntrySymbolic : σ → Except GenericException String
  FromString : σ → String → Except GenericException σ

/-! ## Host properties -/

/-- Modelled from the spec: the host's `MM::Property` of type `MM::String`
(the type both `CreateProperty` calls of the header ask for), which is
declared in the host's device framework and not in this header.  It holds a
string value, a read-only flag and the keys of its allowed-values map. -/
structure Property where
  value : String
  readOnly : Bool
  values : List String
  deriving DecidableEq, Repr

namespace Property

/-- Modelled from the spec: `MM::Property::SetReadOnly`. -/
def SetReadOnly (p : Property) (bReadOnly : Bool) : Property :=
  { p with readOnly := bReadOnly }

/-- Modelled from the spec: `MM::Property::ClearAllowedValues`. -/
def ClearAllowedValues (p : Property) : Property :=
  { p with values := [] }

/-- Modelled from the spec: `MM::Property::AddAllowedValue`. The allowed
values are the keys of a map, so a value that is already a key is not added
a second time. -/
def AddAllowedValue (p : Property) (v : String) : Property :=
  if v ∈ p.values then p else { p with values := p.values ++ [v] }

/-- Modelled from the spec: `MM::StringProperty::Set(const char*)`. -/
def Set (p : Property) (v : String) : Property :=
  { p with value := v }

end Property

/-- Modelled from the spec: an object behind a `MM::PropertyBase*`. Either it
is an `MM::Property` (the `dynamic_cast` of line 325 succeeds) or it is some
other implementation, of which the handler only uses `Set` and `Get`. -/
inductive PropertyBase
  | property (p : Property)
  | other (value : String)
  deriving DecidableEq, Repr

namespace PropertyBase

/-- The call `pProp->Set(v)`. -/
def Set : PropertyBase → String → PropertyBase
  | .property p, v => .property (p.Set v)
  | .other _, v => .other v

/-- The call `pProp->Get(val)`. -/
def Get : PropertyBase → String
  | .property p => p.value
  | .other v => v

end PropertyBase

/-- A call that the adapter makes on the host framework or on the process's
error stream. `CreateProperty` is always made with type `MM::String`. -/
inductive HostCall
  | CreateProperty (name value : String) (readOnly : Bool)
  | AddAllowedValue (name value : String)
  | LogMessage (msg : String)
  | AddToLog (msg : String)
  | cerr (text : String)
  deriving DecidableEq, Repr

/-! ## The code of the header -/

/-- `BaslerCamera::EAccessName`, lines 221-236. -/
def EAccessName (accessMode : EAccessMode) : String :=
  match accessMode with
  | .NA => "Not available"
  | .NI => "Not Implemented"
  | .RO => "Read Only"
  | .RW => "Read Write"
  | .WO => "Write Only"
  | _ => "Unknown"

/-- The two statements of both `catch` blocks that report an exception:
`AddToLog(e.GetDescription())` and the output to `cerr`. -/
def reportException (e : GenericException) : List HostCall :=
  [.AddToLog e.description,
   .cerr ("An exception occurred." ++ "\n" ++ e.description ++ "\n")]

/-- `BaslerCamera::CreatePropertyFromEnum`, lines 273-314, as the sequence of
calls it makes on the host. The results of the host calls are not read by the
code, so the sequence does not depend on the host. -/
def CreatePropertyFromEnum {σ : Type} (sdk : IEnumParameterT σ) (name : String)
    (camProp : σ) : List HostCall :=
  let accessMode := sdk.GetAccessMode camProp
  if accessMode = .RO ∨ accessMode = .RW ∨ accessMode = .NA then
    let readOnly : Bool := decide (accessMode = .RO ∨ accessMode = .NA)
    if accessMode ≠ .NA then
      match sdk.GetSymbolics camProp with
      | .error e => reportException e
      | .ok propertyValues =>
        match sdk.GetCurrentEntrySymbolic camProp with
        | .error e => reportException e
        | .ok symbolic =>
          HostCall.CreateProperty name symbolic readOnly ::
            propertyValues.map (HostCall.AddAllowedValue name)
    else
      [.CreateProperty name "" readOnly, .AddAllowedValue name ""]
  else
    [.LogMessage (name ++ " property not created: Property not accessable\nAccess Mode: "
      ++ EAccessName accessMode)]

/-- What a call of `OnEnumPropertyChanged` leaves behind: the returned code,
the host property, the camera parameter, and the reports it made. -/
structure HandlerResult (σ : Type) where
  ret : Int
  pProp : PropertyBase
  camProp : σ
  out : List HostCall

/-- The `try` block of the `BeforeGet` branch up to line 334: the refresh of
the read-only flag and of the allowed values, done only for an `MM::Property`.
The second component is the exception that left the block, if any; what was
done to the property before the throw stays done. -/
def refreshProperty {σ : Type} (sdk : IEnumParameterT σ) (camProp : σ) :
    PropertyBase → PropertyBase × Option GenericException
  | .property mmProp =>
    let cleared :=
      (mmProp.SetReadOnly (decide (sdk.GetAccessMode camProp ≠ .RW))).ClearAllowedValues
    match sdk.GetSymbolics camProp with
    | .error e => (.property cleared, some e)
    | .ok propertyValues =>
      (.property (propertyValues.foldl Property.AddAllowedValue cleared), none)
  | .other v => (.other v, none)

/-- `BaslerCamera::OnEnumPropertyChanged`, lines 315-366. -/
def OnEnumPropertyChanged {σ : Type} (sdk : IEnumParameterT σ) (camProp : σ)
    (pProp : PropertyBase) (eAct : ActionType) : HandlerResult σ :=
  if sdk.GetAccessMode camProp = .NA then
    ⟨DEVICE_OK, pProp, camProp, []⟩
  else if eAct = .BeforeGet then
    match refreshProperty sdk camProp pProp with
    | (refreshed, some _) => ⟨DEVICE_OK, refreshed.Set "", camProp, []⟩
    | (refreshed, none) =>
      match sdk.GetCurrentEntrySymbolic camProp with
      | .error _ => ⟨DEVICE_OK, refreshed.Set "", camProp, []⟩
      | .ok symbolic => ⟨DEVICE_OK, refreshed.Set symbolic, camProp, []⟩
  else if eAct = .AfterSet then
    match sdk.FromString camProp pProp.Get with
    | .error e => ⟨DEVICE_ERR, pProp, camProp, reportException e⟩
    | .ok written => ⟨DEVICE_OK, pProp, written, []⟩
  else
    ⟨DEVICE_OK, pProp, camProp, []⟩

/-! ## The host's property collection -/

/-- Modelled from the spec: the property collection of the host's device
base class, which is declared in the host's device framework and not in this
header: the properties of the device, by name. -/
abbrev PropertyCollection := List (String × Property)

namespace PropertyCollection

/-- Modelled from the spec: the lookup of a property by its name. -/
def Find (props : PropertyCollection) (name : String) : Option Property :=
  match props with
  | [] => none
  | (n, p) :: rest => if n = name then some p else Find rest name

/-- Modelled from the spec: the host's `CreateProperty` for type `MM::String`.
A name that is taken is refused and the collection stays as it is; otherwise
the new property holds the given value and flag and has no allowed values. -/
def CreateProperty (props : PropertyCollection) (name value : String) (readOnly : Bool) :
    PropertyCollection :=
  match Find props name with
  | some _ => props
  | none => props ++ [(name, { value := value, readOnly := readOnly, values := [] })]

/-- Modelled from the spec: the host's `AddAllowedValue(name, value)`, which
adds the value to the property of that name. -/
def AddAllowedValue (props : PropertyCollection) (name value : String) : PropertyCollection :=
  match props with
  | [] => []
  | (n, p) :: rest =>
    if n = name then (n, p.AddAllowedValue value) :: rest
    else (n, p) :: AddAllowedValue rest name value

/-- The effect of one host call on the property collection. Log and error
stream output leave it alone. -/
def step (props : PropertyCollection) : HostCall → PropertyCollection
  | .CreateProperty name value readOnly => props.CreateProperty name value readOnly
  | .AddAllowedValue name value => props.AddAllowedValue name value
  | .LogMessage _ => props
  | .AddToLog _ => props
  | .cerr _ => props

/-- The effect of a sequence of host calls, in order. -/
def run (props : PropertyCollection) (calls : List HostCall) : PropertyCollection :=
  calls.foldl step props

end PropertyCollection

/-! ## A concrete camera parameter

The theorems below hold for every implementation of the SDK calls. To evaluate
them, `nodeSDK` is one implementation: a node with an access mode, a list of
entries and a current entry, readable in modes `RO` and `RW` and writable in
modes `WO` and `RW`. -/

/-- The state of a concrete enumeration node. -/
structure EnumNode where
  accessMode : EAccessMode
  symbolics : List String
  current : String
  deriving DecidableEq, Repr

/-- A concrete implementation of the SDK calls on an `EnumNode`. -/
def nodeSDK : IEnumParameterT EnumNode where
  GetAccessMode n := n.accessMode
  GetSymbolics n :=
    if n.accessMode = .RO ∨ n.accessMode = .RW then .ok n.symbolics
    else .error ⟨"Node is not readable."⟩
  GetCurrentEntrySymbolic n :=
    if n.accessMode = .RO ∨ n.accessMode = .RW then .ok n.current
    else .error ⟨"Node is not readable."⟩
  FromString n v :=
    if n.accessMode = .WO ∨ n.accessMode = .RW then
      if v ∈ n.symbolics then .ok { n with current := v }
      else .error ⟨"Feature has no such enum entry."⟩
    else .error ⟨"Node is not writable."⟩

/-- A pixel-format node with three entries in a given access mode. -/
def pixelFormat (m : EAccessMode) : EnumNode :=
  { accessMode := m, symbolics := ["Mono8", "Mono12", "BayerRG8"], current := "Mono8" }

/-- A host property with a stale value and stale allowed values. -/
def staleProperty : Property :=
  { value := "Mono12", readOnly := true, values := ["Mono12", "RGB8"] }

/-- The write of line 354 followed by the read of lines 321-337: the handler
is run with `AfterSet` and then, on what that call left behind, with
`BeforeGet`. The two results are returned in that order. -/
def setThenGet {σ : Type} (sdk : IEnumParameterT σ) (camProp : σ) (pProp : PropertyBase) :
    HandlerResult σ × HandlerResult σ :=
  let afterSet := OnEnumPropertyChanged sdk camProp pProp .AfterSet
  (afterSet, OnEnumPropertyChanged sdk afterSet.camProp afterSet.pProp .BeforeGet)

/-! ## Lemmas on the host model -/

theorem Property.foldl_AddAllowedValue_mem (l : List String) (p : Property) (x : String) :
    x ∈ (l.foldl Property.AddAllowedValue p).values ↔ x ∈ p.values ∨ x ∈ l := by
  induction l generalizing p with
  | nil => simp
  | cons a l ih =>
    rw [List.foldl_cons, ih]
    unfold Property.AddAllowedValue
    by_cases h : a ∈ p.values
    · simp only [h, if_true, List.mem_cons]
      constructor
      · rintro (hx | hx)
        · exact Or.inl hx
        · exact Or.inr (Or.inr hx)
      · rintro (hx | hx | hx)
        · exact Or.inl hx
        · exact Or.inl (hx ▸ h)
        · exact Or.inr hx
    · simp only [h, if_false, List.mem_append, List.mem_singleton, List.mem_cons]
      tauto

theorem Property.foldl_AddAllowedValue_value (l : List String) (p : Property) :
    (l.foldl Property.AddAllowedValue p).value = p.value := by
  induction l generalizing p with
  | nil => rfl
  | cons a l ih =>
    rw [List.foldl_cons, ih]
    unfold Property.AddAllowedValue
    split <;> rfl

theorem Property.foldl_AddAllowedValue_readOnly (l : List String) (p : Property) :
    (l.foldl Property.AddAllowedValue p).readOnly = p.readOnly := by
  induction l generalizing p with
  | nil => rfl
  | cons a l ih =>
    rw [List.foldl_cons, ih]
    unfold Property.AddAllowedValue
    split <;> rfl

theorem PropertyCollection.Find_append_fresh (props : PropertyCollection) (name : String)
    (p : Property) (h : props.Find name = none) :
    PropertyCollection.Find (props ++ [(name, p)]) name = some p := by
  induction props with
  | nil => simp [PropertyCollection.Find]
  | cons hd tl ih =>
    obtain ⟨n, q⟩ := hd
    by_cases hn : n = name
    · simp [PropertyCollection.Find, hn] at h
    · simp only [PropertyCollection.Find, hn, if_false] at h
      simp only [List.cons_append, PropertyCollection.Find, hn, if_false]
      exact ih h

theorem PropertyCollection.Find_CreateProperty_fresh (props : PropertyCollection)
    (name value : String) (readOnly : Bool) (h : props.Find name = none) :
    (props.CreateProperty name value readOnly).Find name
      = some { value := value, readOnly := readOnly, values := [] } := by
  unfold PropertyCollection.CreateProperty
  rw [h]
  exact PropertyCollection.Find_append_fresh props name _ h

theorem PropertyCollection.Find_AddAllowedValue (props : PropertyCollection)
    (name value : String) :
    (props.AddAllowedValue name value).Find name
      = (props.Find name).map (fun p => p.AddAllowedValue value) := by
  induction props with
  | nil => rfl
  | cons hd tl ih =>
    obtain ⟨n, q⟩ := hd
    by_cases hn : n = name
    · simp [PropertyCollection.AddAllowedValue, PropertyCollection.Find, hn]
    · simp only [PropertyCollection.AddAllowedValue, PropertyCollection.Find, hn, if_false]
      exact ih

theorem PropertyCollection.Find_run_AddAllowedValue (l : List String)
    (props : PropertyCollection) (name : String) :
    (props.run (l.map (HostCall.AddAllowedValue name))).Find name
      = (props.Find name).map (fun p => l.foldl Property.AddAllowedValue p) := by
  induction l generalizing props with
  | nil => simp [PropertyCollection.run]
  | cons a l ih =>
    have h := ih (props.AddAllowedValue name a)
    simp only [PropertyCollection.run, List.map_cons, List.foldl_cons,
      PropertyCollection.step] at h ⊢
    rw [h, PropertyCollection.Find_AddAllowedValue]
    cases props.Find name <;> simp

/-- What the creation of lines 281-300 leaves under the name on a collection
that did not have it, when the two SDK reads succeed. -/
theorem PropertyCollection.Find_run_created (props : PropertyCollection)
    (name symbolic : String) (readOnly : Bool) (propertyValues : List String)
    (h : props.Find name = none) :
    (props.run (HostCall.CreateProperty name symbolic readOnly ::
        propertyValues.map (HostCall.AddAllowedValue name))).Find name
      = some (propertyValues.foldl Property.AddAllowedValue
          { value := symbolic, readOnly := readOnly, values := [] }) := by
  have hrun : props.run (HostCall.CreateProperty name symbolic readOnly ::
        propertyValues.map (HostCall.AddAllowedValue name))
      = (props.CreateProperty name symbolic readOnly).run
          (propertyValues.map (HostCall.AddAllowedValue name)) := rfl
  rw [hrun, PropertyCollection.Find_run_AddAllowedValue,
    PropertyCollection.Find_CreateProperty_fresh props name symbolic readOnly h]
  rfl

/-- The result of the `BeforeGet` branch on an `MM::Property` when both SDK
reads succeed. -/
theorem OnEnumPropertyChanged_BeforeGet_ok {σ : Type} (sdk : IEnumParameterT σ)
    (camProp : σ) (mmProp : Property) (propertyValues : List String) (symbolic : String)
    (hmode : sdk.GetAccessMode camProp ≠ .NA)
    (hsyms : sdk.GetSymbolics camProp = .ok propertyValues)
    (hcur : sdk.GetCurrentEntrySymbolic camProp = .ok symbolic) :
    OnEnumPropertyChanged sdk camProp (.property mmProp) .BeforeGet
      = ⟨DEVICE_OK,
         .property ((propertyValues.foldl Property.AddAllowedValue
           ((mmProp.SetReadOnly (decide (sdk.GetAccessMode camProp ≠ .RW))).ClearAllowedValues)).Set
             symbolic),
         camProp, []⟩ := by
  simp only [OnEnumPropertyChanged, if_neg hmode, if_true, refreshProperty, hsyms, hcur,
    PropertyBase.Set]

/-- The returned code of the handler, by cases on whether the write of line
354 was attempted and threw. -/
theorem OnEnumPropertyChanged_ret_cases {σ : Type} (sdk : IEnumParameterT σ)
    (camProp : σ) (pProp : PropertyBase) (eAct : ActionType) :
    ((OnEnumPropertyChanged sdk camProp pProp eAct).ret = DEVICE_ERR ∧
      (sdk.GetAccessMode camProp ≠ .NA ∧ eAct = .AfterSet ∧
        ∃ e, sdk.FromString camProp pProp.Get = .error e)) ∨
    ((OnEnumPropertyChanged sdk camProp pProp eAct).ret = DEVICE_OK ∧
      ¬ (sdk.GetAccessMode camProp ≠ .NA ∧ eAct = .AfterSet ∧
        ∃ e, sdk.FromString camProp pProp.Get = .error e)) := by
  unfold OnEnumPropertyChanged
  by_cases hm : sdk.GetAccessMode camProp = .NA
  · right
    simp [hm]
  · by_cases hb : eAct = .BeforeGet
    · subst hb
      right
      simp only [if_neg hm, if_true]
      refine ⟨?_, by simp⟩
      rcases refreshProperty sdk camProp pProp with ⟨refreshed, _ | e⟩
      · simp only
        cases sdk.GetCurrentEntrySymbolic camProp <;> rfl
      · rfl
    · by_cases ha : eAct = .AfterSet
      · subst ha
        simp only [if_neg hm, if_neg hb, if_true]
        cases hf : sdk.FromString camProp pProp.Get with
        | error e => left; exact ⟨rfl, hm, trivial, e, rfl⟩
        | ok w => right; exact ⟨rfl, by simp⟩
      · right
        simp [hm, hb, ha]

/-- The read-only flag that the `BeforeGet` branch leaves on an
`MM::Property`, whether or not an SDK read throws: line 327 runs first. -/
theorem OnEnumPropertyChanged_BeforeGet_readOnly {σ : Type} (sdk : IEnumParameterT σ)
    (camProp : σ) (mmProp : Property) (hmode : sdk.GetAccessMode camProp ≠ .NA) :
    ∃ q : Property,
      (OnEnumPropertyChanged sdk camProp (.property mmProp) .BeforeGet).pProp = .property q ∧
      q.readOnly = decide (sdk.GetAccessMode camProp ≠ .RW) := by
  simp only [OnEnumPropertyChanged, if_neg hmode, if_true, refreshProperty]
  cases sdk.GetSymbolics camProp with
  | error e => exact ⟨_, rfl, rfl⟩
  | ok propertyValues =>
    cases sdk.GetCurrentEntrySymbolic camProp with
    | error e =>
      refine ⟨_, rfl, ?_⟩
      show (propertyValues.foldl Property.AddAllowedValue _).readOnly = _
      rw [Property.foldl_AddAllowedValue_readOnly]
      rfl
    | ok symbolic =>
      refine ⟨_, rfl, ?_⟩
      show (propertyValues.foldl Property.AddAllowedValue _).readOnly = _
      rw [Property.foldl_AddAllowedValue_readOnly]
      rfl

/-! ## The claims -/

/-- C1. Property get for an enumeration parameter: when the access mode is not
`NA`, the host property is an `MM::Property` and the SDK reads do not throw,
the handler called with `BeforeGet` returns `DEVICE_OK` and leaves the host
property with its value equal to the symbolic of the current entry and with
exactly the camera's symbolics as allowed values. -/
theorem C1_BeforeGet_refreshes_value_and_allowed {σ : Type} (sdk : IEnumParameterT σ)
    (camProp : σ) (mmProp : Property) (propertyValues : List String) (symbolic : String)
    (hmode : sdk.GetAccessMode camProp ≠ .NA)
    (hsyms : sdk.GetSymbolics camProp = .ok propertyValues)
    (hcur : sdk.GetCurrentEntrySymbolic camProp = .ok symbolic) :
    (OnEnumPropertyChanged sdk camProp (.property mmProp) .BeforeGet).ret = DEVICE_OK ∧
    ∃ p : Property,
      (OnEnumPropertyChanged sdk camProp (.property mmProp) .BeforeGet).pProp = .property p ∧
      p.value = symbolic ∧
      ∀ v : String, v ∈ p.values ↔ v ∈ propertyValues := by
  rw [OnEnumPropertyChanged_BeforeGet_ok sdk camProp mmProp propertyValues symbolic
    hmode hsyms hcur]
  refine ⟨rfl, _, rfl, rfl, ?_⟩
  intro v
  show v ∈ (propertyValues.foldl Property.AddAllowedValue _).values ↔ _
  rw [Property.foldl_AddAllowedValue_mem]
  simp [Property.ClearAllowedValues]

/-- C1 at a concrete input: a read-write pixel-format node and a host
property whose value and allowed values are stale. -/
theorem C1_BeforeGet_refreshes_value_and_allowed_witness :
    (OnEnumPropertyChanged nodeSDK (pixelFormat .RW) (.property staleProperty) .BeforeGet).ret
      = DEVICE_OK ∧
    ∃ p : Property,
      (OnEnumPropertyChanged nodeSDK (pixelFormat .RW) (.property staleProperty)
        .BeforeGet).pProp = .property p ∧
      p.value = "Mono8" ∧
      ∀ v : String, v ∈ p.values ↔ v ∈ ["Mono8", "Mono12", "BayerRG8"] :=
  C1_BeforeGet_refreshes_value_and_allowed nodeSDK (pixelFormat .RW) staleProperty
    ["Mono8", "Mono12", "BayerRG8"] "Mono8" (by decide) rfl rfl

/-- C2. Parameter validity is decided by the SDK alone: the handler returns
`DEVICE_ERR` exactly when the access mode is not `NA`, the action is
`AfterSet` and `FromString` throws on the property's string; in every other
case it returns `DEVICE_OK`; and the returned code does not depend on the
allowed values of the property. -/
theorem C2_DEVICE_ERR_iff_FromString_throws {σ : Type} (sdk : IEnumParameterT σ)
    (camProp : σ) (pProp : PropertyBase) (eAct : ActionType) :
    ((OnEnumPropertyChanged sdk camProp pProp eAct).ret = DEVICE_ERR ↔
      (sdk.GetAccessMode camProp ≠ .NA ∧ eAct = .AfterSet ∧
        ∃ e, sdk.FromString camProp pProp.Get = .error e)) ∧
    (¬ (sdk.GetAccessMode camProp ≠ .NA ∧ eAct = .AfterSet ∧
        ∃ e, sdk.FromString camProp pProp.Get = .error e) →
      (OnEnumPropertyChanged sdk camProp pProp eAct).ret = DEVICE_OK) ∧
    (∀ (p : Property) (allowed : List String),
      (OnEnumPropertyChanged sdk camProp (.property { p with values := allowed }) eAct).ret
        = (OnEnumPropertyChanged sdk camProp (.property p) eAct).ret) := by
  have hne : DEVICE_OK ≠ DEVICE_ERR := by decide
  have key := OnEnumPropertyChanged_ret_cases sdk camProp pProp eAct
  refine ⟨?_, ?_, ?_⟩
  · constructor
    · intro h
      rcases key with ⟨_, hc⟩ | ⟨hok, _⟩
      · exact hc
      · exact absurd (hok.symm.trans h) hne
    · intro h
      rcases key with ⟨herr, _⟩ | ⟨_, hc⟩
      · exact herr
      · exact absurd h hc
  · intro h
    rcases key with ⟨_, hc⟩ | ⟨hok, _⟩
    · exact absurd hc h
    · exact hok
  · intro p allowed
    unfold OnEnumPropertyChanged
    by_cases hm : sdk.GetAccessMode camProp = .NA
    · simp [hm]
    · by_cases hb : eAct = .BeforeGet
      · subst hb
        simp only [if_neg hm, if_true, refreshProperty]
        cases sdk.GetSymbolics camProp with
        | error e => rfl
        | ok l => simp only; cases sdk.GetCurrentEntrySymbolic camProp <;> rfl
      · by_cases ha : eAct = .AfterSet
        · subst ha
          simp only [if_neg hm, if_neg hb, if_true, PropertyBase.Get]
          cases sdk.FromString camProp p.value <;> rfl
        · simp [hm, hb, ha]

/-- C3. Set-then-get round trip: for a parameter whose access mode is `RW`,
before and after the write, and a string `v` among its symbolics, whose write
makes the entry named `v` current, the handler run with `AfterSet` on a host
property holding `v` and then with `BeforeGet` returns `DEVICE_OK` both times
and leaves the property with value `v` and with `v` among its allowed
values. -/
theorem C3_set_then_get_round_trip {σ : Type} (sdk : IEnumParameterT σ)
    (camProp written : σ) (mmProp : Property) (v : String) (propertyValues : List String)
    (hmode : sdk.GetAccessMode camProp = .RW)
    (hval : mmProp.value = v)
    (hwrite : sdk.FromString camProp v = .ok written)
    (hcur : sdk.GetCurrentEntrySymbolic written = .ok v)
    (hmodeAfter : sdk.GetAccessMode written = .RW)
    (hsyms : sdk.GetSymbolics written = .ok propertyValues)
    (hv : v ∈ propertyValues) :
    (setThenGet sdk camProp (.property mmProp)).1.ret = DEVICE_OK ∧
    (setThenGet sdk camProp (.property mmProp)).2.ret = DEVICE_OK ∧
    ∃ p : Property,
      (setThenGet sdk camProp (.property mmProp)).2.pProp = .property p ∧
      p.value = v ∧ v ∈ p.values := by
  have hna : sdk.GetAccessMode camProp ≠ .NA := by rw [hmode]; decide
  have hna2 : sdk.GetAccessMode written ≠ .NA := by rw [hmodeAfter]; decide
  have hset : OnEnumPropertyChanged sdk camProp (.property mmProp) .AfterSet
      = ⟨DEVICE_OK, .property mmProp, written, []⟩ := by
    have hb : ¬ (ActionType.AfterSet = ActionType.BeforeGet) := by decide
    simp only [OnEnumPropertyChanged, if_neg hna, if_neg hb, if_true, PropertyBase.Get,
      hval, hwrite]
  have hget := OnEnumPropertyChanged_BeforeGet_ok sdk written mmProp propertyValues v hna2
    hsyms hcur
  have h1 : (setThenGet sdk camProp (.property mmProp)).1
      = ⟨DEVICE_OK, .property mmProp, written, []⟩ := hset
  have h2 : (setThenGet sdk camProp (.property mmProp)).2
      = OnEnumPropertyChanged sdk written (.property mmProp) .BeforeGet := by
    show OnEnumPropertyChanged sdk
      (OnEnumPropertyChanged sdk camProp (.property mmProp) .AfterSet).camProp
      (OnEnumPropertyChanged sdk camProp (.property mmProp) .AfterSet).pProp .BeforeGet = _
    rw [hset]
  rw [h1, h2, hget]
  refine ⟨rfl, rfl, _, rfl, rfl, ?_⟩
  show v ∈ (propertyValues.foldl Property.AddAllowedValue _).values
  rw [Property.foldl_AddAllowedValue_mem]
  exact Or.inr hv

/-- C3 at a concrete input: the host asks a read-write pixel-format node
for `Mono12` and reads the property back. -/
theorem C3_set_then_get_round_trip_witness :
    (setThenGet nodeSDK (pixelFormat .RW) (.property staleProperty)).1.ret = DEVICE_OK ∧
    (setThenGet nodeSDK (pixelFormat .RW) (.property staleProperty)).2.ret = DEVICE_OK ∧
    ∃ p : Property,
      (setThenGet nodeSDK (pixelFormat .RW) (.property staleProperty)).2.pProp = .property p ∧
      p.value = "Mono12" ∧ "Mono12" ∈ p.values :=
  C3_set_then_get_round_trip nodeSDK (pixelFormat .RW)
    { pixelFormat .RW with current := "Mono12" } staleProperty "Mono12"
    ["Mono8", "Mono12", "BayerRG8"] rfl rfl rfl rfl rfl rfl (by decide)

/-- C4. Property creation is decided by the access-mode query: when the SDK
reads made in modes `RO` and `RW` do not throw, `CreateProperty` is called
for `name` exactly when the mode is `RO`, `RW` or `NA`; every such call is for
`name` and asks for a read-only property exactly when the mode is `RO` or
`NA`; on a collection without `name` the property is then there with that
flag; and in every other mode the one call made is the log message, which
leaves the collection as it was. -/
theorem C4_creation_decided_by_access_mode {σ : Type} (sdk : IEnumParameterT σ)
    (name : String) (camProp : σ)
    (hsdk : sdk.GetAccessMode camProp = .RO ∨ sdk.GetAccessMode camProp = .RW →
      ∃ propertyValues symbolic, sdk.GetSymbolics camProp = .ok propertyValues ∧
        sdk.GetCurrentEntrySymbolic camProp = .ok symbolic) :
    ((∃ value readOnly,
        HostCall.CreateProperty name value readOnly ∈ CreatePropertyFromEnum sdk name camProp) ↔
      (sdk.GetAccessMode camProp = .RO ∨ sdk.GetAccessMode camProp = .RW ∨
        sdk.GetAccessMode camProp = .NA)) ∧
    (∀ n value readOnly,
      HostCall.CreateProperty n value readOnly ∈ CreatePropertyFromEnum sdk name camProp →
      n = name ∧
      (readOnly = true ↔
        (sdk.GetAccessMode camProp = .RO ∨ sdk.GetAccessMode camProp = .NA))) ∧
    (∀ props : PropertyCollection, props.Find name = none →
      (sdk.GetAccessMode camProp = .RO ∨ sdk.GetAccessMode camProp = .RW ∨
        sdk.GetAccessMode camProp = .NA) →
      ∃ p : Property,
        (props.run (CreatePropertyFromEnum sdk name camProp)).Find name = some p ∧
        (p.readOnly = true ↔
          (sdk.GetAccessMode camProp = .RO ∨ sdk.GetAccessMode camProp = .NA))) ∧
    (¬ (sdk.GetAccessMode camProp = .RO ∨ sdk.GetAccessMode camProp = .RW ∨
        sdk.GetAccessMode camProp = .NA) →
      CreatePropertyFromEnum sdk name camProp
        = [.LogMessage (name ++ " property not created: Property not accessable\nAccess Mode: "
            ++ EAccessName (sdk.GetAccessMode camProp))] ∧
      ∀ props : PropertyCollection,
        props.run (CreatePropertyFromEnum sdk name camProp) = props) := by
  by_cases hcreate : sdk.GetAccessMode camProp = .RO ∨ sdk.GetAccessMode camProp = .RW ∨
      sdk.GetAccessMode camProp = .NA
  · by_cases hna : sdk.GetAccessMode camProp = .NA
    · have htrace : CreatePropertyFromEnum sdk name camProp
          = [.CreateProperty name "" true, .AddAllowedValue name ""] := by
        simp [CreatePropertyFromEnum, hna]
      rw [htrace]
      refine ⟨⟨fun _ => hcreate, fun _ => ⟨"", true, by simp⟩⟩, ?_, ?_, fun h => absurd hcreate h⟩
      · intro n value readOnly hmem
        simp only [List.mem_cons, HostCall.CreateProperty.injEq, List.mem_singleton,
          reduceCtorEq, or_false, List.not_mem_nil] at hmem
        obtain ⟨hn, _, hro⟩ := hmem
        exact ⟨hn, by simp [hro, hna]⟩
      · intro props hfresh _
        have h := PropertyCollection.Find_run_created props name "" true [""] hfresh
        exact ⟨_, h, by rw [Property.foldl_AddAllowedValue_readOnly]; simp [hna]⟩
    · have hrw : sdk.GetAccessMode camProp = .RO ∨ sdk.GetAccessMode camProp = .RW := by
        rcases hcreate with h | h | h
        · exact Or.inl h
        · exact Or.inr h
        · exact absurd h hna
      obtain ⟨propertyValues, symbolic, hsyms, hcur⟩ := hsdk hrw
      have htrace : CreatePropertyFromEnum sdk name camProp
          = HostCall.CreateProperty name symbolic
              (decide (sdk.GetAccessMode camProp = .RO ∨ sdk.GetAccessMode camProp = .NA)) ::
            propertyValues.map (HostCall.AddAllowedValue name) := by
        simp only [CreatePropertyFromEnum, if_pos hcreate, hsyms, hcur]
        simp [hna]
      rw [htrace]
      refine ⟨⟨fun _ => hcreate, fun _ => ⟨symbolic, _, List.mem_cons_self _ _⟩⟩, ?_, ?_,
        fun h => absurd hcreate h⟩
      · intro n value readOnly hmem
        simp only [List.mem_cons, HostCall.CreateProperty.injEq, List.mem_map, reduceCtorEq,
          and_false, exists_false, or_false] at hmem
        obtain ⟨hn, _, hro⟩ := hmem
        exact ⟨hn, by simp [hro]⟩
      · intro props hfresh _
        have h := PropertyCollection.Find_run_created props name symbolic
          (decide (sdk.GetAccessMode camProp = .RO ∨ sdk.GetAccessMode camProp = .NA))
          propertyValues hfresh
        exact ⟨_, h, by rw [Property.foldl_AddAllowedValue_readOnly]; simp⟩
  · have htrace : CreatePropertyFromEnum sdk name camProp
        = [.LogMessage (name ++ " property not created: Property not accessable\nAccess Mode: "
            ++ EAccessName (sdk.GetAccessMode camProp))] := by
      simp only [CreatePropertyFromEnum, if_neg hcreate]
    rw [htrace]
    refine ⟨⟨fun ⟨_, _, h⟩ => by simp at h, fun h => absurd h hcreate⟩, ?_,
      fun _ _ h => absurd h hcreate, fun _ => ⟨rfl, fun _ => rfl⟩⟩
    intro n value readOnly hmem
    simp at hmem

/-- C4 at a concrete input: a read-write pixel-format node. -/
theorem C4_creation_decided_by_access_mode_witness :
    CreatePropertyFromEnum nodeSDK "PixelType" (pixelFormat .RW)
      = [.CreateProperty "PixelType" "Mono8" false,
         .AddAllowedValue "PixelType" "Mono8",
         .AddAllowedValue "PixelType" "Mono12",
         .AddAllowedValue "PixelType" "BayerRG8"] ∧
    ∃ p : Property,
      (PropertyCollection.run [] (CreatePropertyFromEnum nodeSDK "PixelType"
        (pixelFormat .RW))).Find "PixelType" = some p ∧
      (p.readOnly = true ↔
        (nodeSDK.GetAccessMode (pixelFormat .RW) = .RO ∨
          nodeSDK.GetAccessMode (pixelFormat .RW) = .NA)) :=
  ⟨rfl,
   (C4_creation_decided_by_access_mode nodeSDK "PixelType" (pixelFormat .RW)
      (fun _ => ⟨["Mono8", "Mono12", "BayerRG8"], "Mono8", rfl, rfl⟩)).2.2.1
      [] rfl (Or.inr (Or.inl rfl))⟩

/-- C5, as stated, fails in access mode `NA`: the handler called with
`AfterSet` on a not-available pixel-format node returns `DEVICE_OK` through
the early return of lines 318-319, the camera parameter is left as it was, no
write of the property's string has succeeded, and the camera's entry `Mono8`
differs from the host's value `Mono12`. -/
theorem C5_counterexample_NA_returns_ok_without_write :
    (OnEnumPropertyChanged nodeSDK (pixelFormat .NA) (.property staleProperty) .AfterSet).ret
      = DEVICE_OK ∧
    (OnEnumPropertyChanged nodeSDK (pixelFormat .NA) (.property staleProperty)
      .AfterSet).camProp = pixelFormat .NA ∧
    nodeSDK.FromString (pixelFormat .NA) (PropertyBase.property staleProperty).Get
      ≠ .ok (OnEnumPropertyChanged nodeSDK (pixelFormat .NA) (.property staleProperty)
          .AfterSet).camProp ∧
    (OnEnumPropertyChanged nodeSDK (pixelFormat .NA) (.property staleProperty)
      .AfterSet).camProp.current
      ≠ (OnEnumPropertyChanged nodeSDK (pixelFormat .NA) (.property staleProperty)
          .AfterSet).pProp.Get := by
  refine ⟨by decide, by decide, ?_, by decide⟩
  intro h
  have hthrows : nodeSDK.FromString (pixelFormat .NA) (PropertyBase.property staleProperty).Get
      = .error ⟨"Node is not writable."⟩ := rfl
  rw [hthrows] at h
  cases h

/-- C5, amended. Host and camera stay in sync on a write in every access mode
other than `NA`: if the handler called with `AfterSet` returns `DEVICE_OK`,
then `FromString` was called with exactly the property's string and the
camera parameter is in the state that call produced, the host property is
unchanged, and, for an SDK whose write makes the named entry current, the
camera's current symbolic equals the host property's value. -/
theorem C5_AfterSet_ok_means_written {σ : Type} (sdk : IEnumParameterT σ)
    (camProp : σ) (pProp : PropertyBase)
    (hmode : sdk.GetAccessMode camProp ≠ .NA)
    (hret : (OnEnumPropertyChanged sdk camProp pProp .AfterSet).ret = DEVICE_OK) :
    sdk.FromString camProp pProp.Get
      = .ok (OnEnumPropertyChanged sdk camProp pProp .AfterSet).camProp ∧
    (OnEnumPropertyChanged sdk camProp pProp .AfterSet).pProp = pProp ∧
    ((∀ written, sdk.FromString camProp pProp.Get = .ok written →
        sdk.GetCurrentEntrySymbolic written = .ok pProp.Get) →
      sdk.GetCurrentEntrySymbolic (OnEnumPropertyChanged sdk camProp pProp .AfterSet).camProp
        = .ok (OnEnumPropertyChanged sdk camProp pProp .AfterSet).pProp.Get) := by
  have hb : ¬ (ActionType.AfterSet = ActionType.BeforeGet) := by decide
  have hne : DEVICE_ERR ≠ DEVICE_OK := by decide
  have hunfold : OnEnumPropertyChanged sdk camProp pProp .AfterSet
      = match sdk.FromString camProp pProp.Get with
        | .error e => ⟨DEVICE_ERR, pProp, camProp, reportException e⟩
        | .ok written => ⟨DEVICE_OK, pProp, written, []⟩ := by
    simp only [OnEnumPropertyChanged, if_neg hmode, if_neg hb, if_true]
  rw [hunfold] at hret ⊢
  cases hf : sdk.FromString camProp pProp.Get with
  | error e =>
    rw [hf] at hret
    exact absurd hret hne
  | ok written =>
    refine ⟨rfl, rfl, fun hsel => ?_⟩
    exact hsel written rfl

/-- C5, amended, at a concrete input: the host sets a read-write
pixel-format node to `Mono12`. -/
theorem C5_AfterSet_ok_means_written_witness :
    nodeSDK.FromString (pixelFormat .RW) (PropertyBase.property staleProperty).Get
      = .ok (OnEnumPropertyChanged nodeSDK (pixelFormat .RW) (.property staleProperty)
          .AfterSet).camProp ∧
    (OnEnumPropertyChanged nodeSDK (pixelFormat .RW) (.property staleProperty)
      .AfterSet).camProp.current = "Mono12" :=
  ⟨(C5_AfterSet_ok_means_written nodeSDK (pixelFormat .RW) (.property staleProperty)
      (by decide) (by decide)).1, by decide⟩

/-- C7. A failed read is swallowed: when the access mode is not `NA` and an
SDK call made in the `BeforeGet` branch throws (`GetSymbolics`, which is
called for an `MM::Property` only, or the read of the current entry), the
handler returns `DEVICE_OK`, the host property's value is the empty string,
and the camera parameter is as it was. -/
theorem C7_failed_read_is_swallowed {σ : Type} (sdk : IEnumParameterT σ)
    (camProp : σ) (pProp : PropertyBase)
    (hmode : sdk.GetAccessMode camProp ≠ .NA)
    (hthrow : ((∃ p, pProp = .property p) ∧ ∃ e, sdk.GetSymbolics camProp = .error e) ∨
      ∃ e, sdk.GetCurrentEntrySymbolic camProp = .error e) :
    (OnEnumPropertyChanged sdk camProp pProp .BeforeGet).ret = DEVICE_OK ∧
    (OnEnumPropertyChanged sdk camProp pProp .BeforeGet).pProp.Get = "" ∧
    (OnEnumPropertyChanged sdk camProp pProp .BeforeGet).camProp = camProp ∧
    (OnEnumPropertyChanged sdk camProp pProp .BeforeGet).out = [] := by
  have hget : ∀ q : PropertyBase, (q.Set "").Get = "" := by
    intro q
    cases q <;> rfl
  have key : ∃ q : PropertyBase, OnEnumPropertyChanged sdk camProp pProp .BeforeGet
      = ⟨DEVICE_OK, q.Set "", camProp, []⟩ := by
    simp only [OnEnumPropertyChanged, if_neg hmode, if_true]
    cases pProp with
    | other value =>
      rcases hthrow with ⟨⟨p, hp⟩, _⟩ | ⟨e, he⟩
      · cases hp
      · simp only [refreshProperty, he]
        exact ⟨_, rfl⟩
    | property mmProp =>
      simp only [refreshProperty]
      cases hs : sdk.GetSymbolics camProp with
      | error e => exact ⟨_, rfl⟩
      | ok propertyValues =>
        rcases hthrow with ⟨_, e, he⟩ | ⟨e, he⟩
        · rw [hs] at he
          cases he
        · simp only [he]
          exact ⟨_, rfl⟩
  obtain ⟨q, hq⟩ := key
  rw [hq]
  exact ⟨rfl, hget q, rfl, rfl⟩

/-- C7 at a concrete input: a write-only node, whose reads throw. -/
theorem C7_failed_read_is_swallowed_witness :
    (OnEnumPropertyChanged nodeSDK (pixelFormat .WO) (.property staleProperty) .BeforeGet).ret
      = DEVICE_OK ∧
    (OnEnumPropertyChanged nodeSDK (pixelFormat .WO) (.property staleProperty)
      .BeforeGet).pProp.Get = "" ∧
    (OnEnumPropertyChanged nodeSDK (pixelFormat .WO) (.property staleProperty)
      .BeforeGet).camProp = pixelFormat .WO ∧
    (OnEnumPropertyChanged nodeSDK (pixelFormat .WO) (.property staleProperty)
      .BeforeGet).out = [] :=
  C7_failed_read_is_swallowed nodeSDK (pixelFormat .WO) (.property staleProperty)
    (by decide) (Or.inr ⟨⟨"Node is not readable."⟩, rfl⟩)

/-- C8. Value-is-allowed invariant: when the SDK reads made in an access mode
other than `NA` do not throw and report the current entry's symbolic among
the symbolics, the host property's value is one of its allowed values
(i) in the property that `CreatePropertyFromEnum` creates under a name that
was free, in each of the modes `RO`, `RW` and `NA`, where for `NA` the value is
the empty string and the empty string is the only allowed value, and
(ii) after every call of the handler with `BeforeGet` in a mode other than
`NA`. -/
theorem C8_value_is_allowed {σ : Type} (sdk : IEnumParameterT σ) (name : String)
    (camProp : σ)
    (hsdk : sdk.GetAccessMode camProp ≠ .NA →
      ∃ propertyValues symbolic, sdk.GetSymbolics camProp = .ok propertyValues ∧
        sdk.GetCurrentEntrySymbolic camProp = .ok symbolic ∧ symbolic ∈ propertyValues) :
    ((sdk.GetAccessMode camProp = .RO ∨ sdk.GetAccessMode camProp = .RW ∨
        sdk.GetAccessMode camProp = .NA) →
      ∀ props : PropertyCollection, props.Find name = none →
        ∃ p : Property,
          (props.run (CreatePropertyFromEnum sdk name camProp)).Find name = some p ∧
          p.value ∈ p.values ∧
          (sdk.GetAccessMode camProp = .NA → p.value = "" ∧ p.values = [""])) ∧
    (sdk.GetAccessMode camProp ≠ .NA →
      ∀ mmProp : Property, ∃ q : Property,
        (OnEnumPropertyChanged sdk camProp (.property mmProp) .BeforeGet).pProp = .property q ∧
        q.value ∈ q.values) := by
  constructor
  · intro hcreate props hfresh
    by_cases hna : sdk.GetAccessMode camProp = .NA
    · have htrace : CreatePropertyFromEnum sdk name camProp
          = HostCall.CreateProperty name "" true ::
              [""].map (HostCall.AddAllowedValue name) := by
        simp [CreatePropertyFromEnum, hna]
      rw [htrace, PropertyCollection.Find_run_created props name "" true [""] hfresh]
      exact ⟨_, rfl, by decide, fun _ => ⟨rfl, rfl⟩⟩
    · obtain ⟨propertyValues, symbolic, hsyms, hcur, hmem⟩ := hsdk hna
      have htrace : CreatePropertyFromEnum sdk name camProp
          = HostCall.CreateProperty name symbolic
              (decide (sdk.GetAccessMode camProp = .RO ∨ sdk.GetAccessMode camProp = .NA)) ::
            propertyValues.map (HostCall.AddAllowedValue name) := by
        simp only [CreatePropertyFromEnum, if_pos hcreate, hsyms, hcur]
        simp [hna]
      rw [htrace, PropertyCollection.Find_run_created props name symbolic _ propertyValues
        hfresh]
      refine ⟨_, rfl, ?_, fun h => absurd h hna⟩
      rw [Property.foldl_AddAllowedValue_value, Property.foldl_AddAllowedValue_mem]
      exact Or.inr hmem
  · intro hna mmProp
    obtain ⟨propertyValues, symbolic, hsyms, hcur, hmem⟩ := hsdk hna
    rw [OnEnumPropertyChanged_BeforeGet_ok sdk camProp mmProp propertyValues symbolic
      hna hsyms hcur]
    refine ⟨_, rfl, ?_⟩
    show symbolic ∈ (propertyValues.foldl Property.AddAllowedValue _).values
    rw [Property.foldl_AddAllowedValue_mem]
    exact Or.inr hmem

/-- C8 at a concrete input: a read-only pixel-format node, created on an
empty collection and then read. -/
theorem C8_value_is_allowed_witness :
    (∃ p : Property,
      (PropertyCollection.run [] (CreatePropertyFromEnum nodeSDK "PixelType"
        (pixelFormat .RO))).Find "PixelType" = some p ∧
      p.value ∈ p.values ∧
      (nodeSDK.GetAccessMode (pixelFormat .RO) = .NA → p.value = "" ∧ p.values = [""])) ∧
    ∃ q : Property,
      (OnEnumPropertyChanged nodeSDK (pixelFormat .RO) (.property staleProperty)
        .BeforeGet).pProp = .property q ∧
      q.value ∈ q.values :=
  ⟨(C8_value_is_allowed nodeSDK "PixelType" (pixelFormat .RO)
      (fun _ => ⟨["Mono8", "Mono12", "BayerRG8"], "Mono8", rfl, rfl, by decide⟩)).1
      (Or.inl rfl) [] rfl,
   (C8_value_is_allowed nodeSDK "PixelType" (pixelFormat .RO)
      (fun _ => ⟨["Mono8", "Mono12", "BayerRG8"], "Mono8", rfl, rfl, by decide⟩)).2
      (by decide) staleProperty⟩

/-- C9. The two read-only rules agree: in each access mode under which
`CreatePropertyFromEnum` creates a property (`RO`, `RW`, `NA`, the SDK reads
of the creation not throwing), the created property is read-only exactly for
`RO` and `NA`, and a following call of the handler with `BeforeGet`, made
while the access mode is the same, leaves the property's read-only flag
equal to the one it was created with. -/
theorem C9_read_only_rules_agree {σ : Type} (sdk : IEnumParameterT σ) (name : String)
    (camProp camLater : σ) (props : PropertyCollection)
    (hcreate : sdk.GetAccessMode camProp = .RO ∨ sdk.GetAccessMode camProp = .RW ∨
      sdk.GetAccessMode camProp = .NA)
    (hsdk : sdk.GetAccessMode camProp ≠ .NA →
      ∃ propertyValues symbolic, sdk.GetSymbolics camProp = .ok propertyValues ∧
        sdk.GetCurrentEntrySymbolic camProp = .ok symbolic)
    (hfresh : props.Find name = none)
    (hstill : sdk.GetAccessMode camLater = sdk.GetAccessMode camProp) :
    ∃ p : Property,
      (props.run (CreatePropertyFromEnum sdk name camProp)).Find name = some p ∧
      (p.readOnly = true ↔
        (sdk.GetAccessMode camProp = .RO ∨ sdk.GetAccessMode camProp = .NA)) ∧
      (p.readOnly = false ↔ sdk.GetAccessMode camProp = .RW) ∧
      ∃ q : Property,
        (OnEnumPropertyChanged sdk camLater (.property p) .BeforeGet).pProp = .property q ∧
        q.readOnly = p.readOnly := by
  by_cases hna : sdk.GetAccessMode camProp = .NA
  · have htrace : CreatePropertyFromEnum sdk name camProp
        = HostCall.CreateProperty name "" true ::
            [""].map (HostCall.AddAllowedValue name) := by
      simp [CreatePropertyFromEnum, hna]
    rw [htrace, PropertyCollection.Find_run_created props name "" true [""] hfresh]
    refine ⟨_, rfl, ?_, ?_, _, ?_, rfl⟩
    · rw [Property.foldl_AddAllowedValue_readOnly]
      simp [hna]
    · rw [Property.foldl_AddAllowedValue_readOnly]
      simp [hna]
    · have hlater : sdk.GetAccessMode camLater = .NA := hstill.trans hna
      simp only [OnEnumPropertyChanged, if_pos hlater]
  · obtain ⟨propertyValues, symbolic, hsyms, hcur⟩ := hsdk hna
    have htrace : CreatePropertyFromEnum sdk name camProp
        = HostCall.CreateProperty name symbolic
            (decide (sdk.GetAccessMode camProp = .RO ∨ sdk.GetAccessMode camProp = .NA)) ::
          propertyValues.map (HostCall.AddAllowedValue name) := by
      simp only [CreatePropertyFromEnum, if_pos hcreate, hsyms, hcur]
      simp [hna]
    rw [htrace, PropertyCollection.Find_run_created props name symbolic _ propertyValues
      hfresh]
    have hlater : sdk.GetAccessMode camLater ≠ .NA := by rw [hstill]; exact hna
    obtain ⟨q, hq, hro⟩ := OnEnumPropertyChanged_BeforeGet_readOnly sdk camLater
      (propertyValues.foldl Property.AddAllowedValue
        { value := symbolic,
          readOnly := decide (sdk.GetAccessMode camProp = .RO ∨ sdk.GetAccessMode camProp = .NA),
          values := [] }) hlater
    refine ⟨_, rfl, ?_, ?_, q, hq, ?_⟩
    · rw [Property.foldl_AddAllowedValue_readOnly]
      simp
    · rw [Property.foldl_AddAllowedValue_readOnly]
      rcases hcreate with h | h | h
      · simp [h]
      · simp [h]
      · exact absurd h hna
    · rw [hro, hstill, Property.foldl_AddAllowedValue_readOnly]
      rcases hcreate with h | h | h
      · simp [h]
      · simp [h]
      · exact absurd h hna

/-- C9 at a concrete input: a read-write pixel-format node, created on an
empty collection and read while still read-write. -/
theorem C9_read_only_rules_agree_witness :
    ∃ p : Property,
      (PropertyCollection.run [] (CreatePropertyFromEnum nodeSDK "PixelType"
        (pixelFormat .RW))).Find "PixelType" = some p ∧
      (p.readOnly = true ↔
        (nodeSDK.GetAccessMode (pixelFormat .RW) = .RO ∨
          nodeSDK.GetAccessMode (pixelFormat .RW) = .NA)) ∧
      (p.readOnly = false ↔ nodeSDK.GetAccessMode (pixelFormat .RW) = .RW) ∧
      ∃ q : Property,
        (OnEnumPropertyChanged nodeSDK { pixelFormat .RW with current := "Mono12" }
          (.property p) .BeforeGet).pProp = .property q ∧
        q.readOnly = p.readOnly :=
  C9_read_only_rules_agree nodeSDK "PixelType" (pixelFormat .RW)
    { pixelFormat .RW with current := "Mono12" } []
    (Or.inr (Or.inl rfl)) (fun _ => ⟨["Mono8", "Mono12", "BayerRG8"], "Mono8", rfl, rfl⟩)
    rfl rfl

end BaslerPylonCamera
